import Mathlib

/-!
Verification of the retry-with-backoff hook of Makefolder/react-utils
(`src/hooks/useRetry.ts`).

The hook is embedded shallowly: the recursive `attemptExecution` closure and the
`execute` function are translated to pure Lean functions that return the ordered
list of externally visible events (React state updates, callback invocations,
scheduled delay timers) together with how the returned promise settles.  The
wrapped callback is modelled by its behaviour per invocation.  Cancellation on
unmount (the `useEffect` cleanup that clears the pending timeout) is modelled
separately as a labelled transition system.
-/

set_option autoImplicit false

namespace ReactUtils

/-- Backoff mode of the retry hook (`enum Mode { CONSTANT, EXPONENTIAL }`). -/
inductive Mode where
  | CONSTANT
  | EXPONENTIAL
deriving DecidableEq, Repr

/-- Observable status of the hook (`type Status = 'idle' | 'fetching' | 'error'`). -/
inductive Status where
  | idle
  | fetching
  | error
deriving DecidableEq, Repr

/-- A JavaScript `Error` value, identified by its message. -/
structure JSError where
  message : String
deriving DecidableEq, Repr

/-- A value thrown by the callback: either an `Error` instance or any other value. -/
inductive Thrown where
  | err (e : JSError)
  | other (id : Nat)
deriving DecidableEq, Repr

/-- Mirrors `err instanceof Error ? err : new Error('Unknown error')` in the
exhausted-attempts branch of `attemptExecution`. -/
def coerceError : Thrown → JSError
  | .err e => e
  | .other _ => ⟨"Unknown error"⟩

/-- The `RetryOptions` interface:
`{ mode?: Mode; initialInterval: number; maxRetries?: number }`. -/
structure RetryOptions where
  mode : Option Mode
  initialInterval : Int
  maxRetries : Option Int
deriving DecidableEq, Repr

/-- Mirrors the destructuring default `const { initialInterval, maxRetries = 3 } = opts`. -/
def RetryOptions.maxRetriesD (opts : RetryOptions) : Int :=
  opts.maxRetries.getD 3

/-- Mirrors `const mode = opts.mode ?? Mode.CONSTANT`. -/
def RetryOptions.modeD (opts : RetryOptions) : Mode :=
  opts.mode.getD Mode.CONSTANT

/-- Behaviour of the wrapped callback inside one `execute()` call: `op n` is the
result of its `(n+1)`-st invocation — `none` if it returns normally, `some t`
if it throws the value `t`. -/
abbrev Op := Nat → Option Thrown

/-- Externally visible actions performed during one `execute()` call, in order:
React state updates, callback invocations, and scheduled delay timers. -/
inductive Event where
  | setStatus (s : Status)
  | setError (e : Option JSError)
  | invoke
  | wait (d : Int)
deriving DecidableEq, Repr

/-- How the promise returned by `execute()` settles. -/
inductive Outcome where
  | resolved
  | rejected (e : JSError)
deriving DecidableEq, Repr

/-- The recursive `attemptExecution` closure of `useRetry`, with its captured
mutable locals `attempts` and `delay` made explicit parameters.  One call:
invoke the callback; on success set status to idle and resolve; on failure
increment `attempts`; if `attempts >= maxRetries`, record the coerced error,
set status to error and reject with it; otherwise schedule a timer for the
current `delay`, double `delay` afterwards when the mode is EXPONENTIAL, and
recurse.  Returns the events performed from this point on and the settlement. -/
def attemptExecution (op : Op) (mode : Mode) (maxRetries : Int)
    (attempts : Nat) (delay : Int) : List Event × Outcome :=
  match op attempts with
  | none =>
      ([.invoke, .setStatus .idle], .resolved)
  | some t =>
      if h : (attempts + 1 : Int) ≥ maxRetries then
        ([.invoke, .setError (some (coerceError t)), .setStatus .error],
          .rejected (coerceError t))
      else
        let delay' := if mode = Mode.EXPONENTIAL then delay * 2 else delay
        let rest := attemptExecution op mode maxRetries (attempts + 1) delay'
        (.invoke :: .wait delay :: rest.1, rest.2)
termination_by maxRetries.toNat - attempts
decreasing_by
  simp_wf
  omega

/-- The `execute` function: resets the local attempt counter to `0` and the local
delay to `initialInterval`, sets status to fetching, clears the recorded error,
then runs `attemptExecution`. -/
def execute (op : Op) (opts : RetryOptions) : List Event × Outcome :=
  let rest := attemptExecution op opts.modeD opts.maxRetriesD 0 opts.initialInterval
  (.setStatus .fetching :: .setError none :: rest.1, rest.2)

/-- Whether an event is a callback invocation. -/
def isInvoke : Event → Bool
  | .invoke => true
  | _ => false

/-- Number of callback invocations in an event trace. -/
def invocationCount (evs : List Event) : Nat :=
  evs.countP isInvoke

/-- The scheduled timer delays of a trace, in order. -/
def waitDelays (evs : List Event) : List Int :=
  evs.filterMap fun e => match e with | .wait d => some d | _ => none

/-- The successive values passed to `setStatus`, in order. -/
def statusEvents (evs : List Event) : List Status :=
  evs.filterMap fun e => match e with | .setStatus s => some s | _ => none

/-- The successive values passed to `setError`, in order. -/
def errorEvents (evs : List Event) : List (Option JSError) :=
  evs.filterMap fun e => match e with | .setError e0 => some e0 | _ => none

/-- The status last set during a trace, if any. -/
def finalStatus (evs : List Event) : Option Status :=
  (statusEvents evs).getLast?

/-- Initial value of the `status` state: `useState<Status>('idle')`. -/
def initialStatus : Status := .idle

/-- Initial value of the `error` state: `useState<Error | null>(null)`. -/
def initialError : Option JSError := none

/-- Effect of one event on the pair of React state cells `(status, error)`:
`setStatus` and `setError` update the respective cell, invocations and timers
leave both unchanged. -/
def stepState : Status × Option JSError → Event → Status × Option JSError
  | (_, e), .setStatus s1 => (s1, e)
  | (s, _), .setError e1 => (s, e1)
  | st, .invoke => st
  | st, .wait _ => st

/-- The `(status, error)` state cells after performing a list of events,
starting from `init`. -/
def stateAfter (init : Status × Option JSError) (evs : List Event) :
    Status × Option JSError :=
  evs.foldl stepState init

/-- The invariant relating the two state cells: a non-null recorded error is
only observable while the status is `error`. -/
def statusErrorInv (p : Status × Option JSError) : Prop :=
  p.2 = none ∨ p.1 = Status.error

/-- Events at which the rest of the application can observe the hook's state:
the synchronous code between two such events runs without yielding control. -/
def isYieldPoint : Event → Bool
  | .invoke => true
  | .wait _ => true
  | _ => false

/-- Whether position `n` of a trace is observable: the trace is about to yield
control (invoke the callback or suspend on a timer), or has ended. -/
def observableAt (evs : List Event) (n : Nat) : Bool :=
  match evs.get? n with
  | some e => isYieldPoint e
  | none => true

/-- The values of the mutable locals `(attempts, delay)` of `execute` at the
start of each run of `attemptExecution`, in order.  Follows exactly the same
recursion as `attemptExecution`. -/
def attemptStates (op : Op) (mode : Mode) (maxRetries : Int)
    (attempts : Nat) (delay : Int) : List (Nat × Int) :=
  (attempts, delay) ::
    match op attempts with
    | none => []
    | some _ =>
        if h : (attempts + 1 : Int) ≥ maxRetries then []
        else
          attemptStates op mode maxRetries (attempts + 1)
            (if mode = Mode.EXPONENTIAL then delay * 2 else delay)
termination_by maxRetries.toNat - attempts
decreasing_by
  simp_wf
  omega

/-- The `(attempts, delay)` states of one `execute()` call, in order. -/
def executeStates (op : Op) (opts : RetryOptions) : List (Nat × Int) :=
  attemptStates op opts.modeD opts.maxRetriesD 0 opts.initialInterval

/-- States of one `execute()` call viewed together with the unmount cleanup:
the callback is about to run or running (`running`), a retry timer is pending
in `timeoutRef` (`waiting`), the call has settled (`settled`), or the owning
component was torn down while the timer was pending and the cleanup effect ran
`clearTimeout` (`tornDown`). -/
inductive MState where
  | running (attempts : Nat) (delay : Int)
  | waiting (attempts : Nat) (delay : Int)
  | settled (o : Outcome)
  | tornDown
deriving DecidableEq, Repr

/-- Labels of the transition system: the callback runs to completion, the
pending `setTimeout` fires and resumes the awaited promise, or the component
unmounts while the timer is pending and the cleanup clears it. -/
inductive MLabel where
  | invoke
  | timerFire
  | teardown
deriving DecidableEq, Repr

/-- One step of the `execute()` call under `op`.  From `running`, invoking the
callback resolves, rejects, or schedules a timer for the current delay exactly
as in `attemptExecution`; from `waiting`, the timer firing resumes the loop
(doubling the delay in EXPONENTIAL mode), while teardown clears the pending
timer, after which its resolve callback can never run, so the call is stuck. -/
def retryStep (op : Op) (mode : Mode) (maxRetries : Int) :
    MState → MLabel → Option MState
  | .running attempts delay, .invoke =>
      match op attempts with
      | none => some (.settled .resolved)
      | some t =>
          if (attempts + 1 : Int) ≥ maxRetries then
            some (.settled (.rejected (coerceError t)))
          else
            some (.waiting (attempts + 1) delay)
  | .waiting attempts delay, .timerFire =>
      some (.running attempts (if mode = Mode.EXPONENTIAL then delay * 2 else delay))
  | .waiting _ _, .teardown => some .tornDown
  | _, _ => none

/-- Run a list of labelled steps from a state; `none` if some step is not
enabled. -/
def runTrace (op : Op) (mode : Mode) (maxRetries : Int) :
    MState → List MLabel → Option MState
  | s, [] => some s
  | s, l :: ls =>
      match retryStep op mode maxRetries s l with
      | none => none
      | some s1 => runTrace op mode maxRetries s1 ls

/-! ### Unfolding lemmas for the three branches of `attemptExecution` -/

theorem attemptExecution_of_none {op : Op} {mode : Mode} {mr : Int}
    {attempts : Nat} {delay : Int} (h : op attempts = none) :
    attemptExecution op mode mr attempts delay =
      ([.invoke, .setStatus .idle], .resolved) := by
  rw [attemptExecution.eq_def, h]

theorem attemptExecution_of_exhaust {op : Op} {mode : Mode} {mr : Int}
    {attempts : Nat} {delay : Int} {t : Thrown}
    (ht : op attempts = some t) (h : (attempts + 1 : Int) ≥ mr) :
    attemptExecution op mode mr attempts delay =
      ([.invoke, .setError (some (coerceError t)), .setStatus .error],
        .rejected (coerceError t)) := by
  rw [attemptExecution.eq_def, ht]
  simp [h]

theorem attemptExecution_of_retry {op : Op} {mode : Mode} {mr : Int}
    {attempts : Nat} {delay : Int} {t : Thrown}
    (ht : op attempts = some t) (h : ¬ (attempts + 1 : Int) ≥ mr) :
    attemptExecution op mode mr attempts delay =
      (.invoke :: .wait delay ::
          (attemptExecution op mode mr (attempts + 1)
            (if mode = Mode.EXPONENTIAL then delay * 2 else delay)).1,
        (attemptExecution op mode mr (attempts + 1)
          (if mode = Mode.EXPONENTIAL then delay * 2 else delay)).2) := by
  rw [attemptExecution.eq_def, ht]
  simp [h]

/-! ### Computation rules for the trace observables -/

theorem invocationCount_nil : invocationCount [] = 0 := rfl

theorem invocationCount_cons (e : Event) (evs : List Event) :
    invocationCount (e :: evs) =
      invocationCount evs + (if isInvoke e then 1 else 0) := by
  simp [invocationCount, List.countP_cons]

theorem waitDelays_nil : waitDelays [] = [] := rfl

theorem statusEvents_nil : statusEvents [] = [] := rfl

theorem errorEvents_nil : errorEvents [] = [] := rfl

theorem waitDelays_cons_setStatus (s : Status) (evs : List Event) :
    waitDelays (.setStatus s :: evs) = waitDelays evs := rfl

theorem waitDelays_cons_setError (e : Option JSError) (evs : List Event) :
    waitDelays (.setError e :: evs) = waitDelays evs := rfl

theorem waitDelays_cons_invoke (evs : List Event) :
    waitDelays (.invoke :: evs) = waitDelays evs := rfl

theorem waitDelays_cons_wait (d : Int) (evs : List Event) :
    waitDelays (.wait d :: evs) = d :: waitDelays evs := rfl

theorem statusEvents_cons_setStatus (s : Status) (evs : List Event) :
    statusEvents (.setStatus s :: evs) = s :: statusEvents evs := rfl

theorem statusEvents_cons_setError (e : Option JSError) (evs : List Event) :
    statusEvents (.setError e :: evs) = statusEvents evs := rfl

theorem statusEvents_cons_invoke (evs : List Event) :
    statusEvents (.invoke :: evs) = statusEvents evs := rfl

theorem statusEvents_cons_wait (d : Int) (evs : List Event) :
    statusEvents (.wait d :: evs) = statusEvents evs := rfl

theorem errorEvents_cons_setStatus (s : Status) (evs : List Event) :
    errorEvents (.setStatus s :: evs) = errorEvents evs := rfl

theorem errorEvents_cons_setError (e : Option JSError) (evs : List Event) :
    errorEvents (.setError e :: evs) = e :: errorEvents evs := rfl

theorem errorEvents_cons_invoke (evs : List Event) :
    errorEvents (.invoke :: evs) = errorEvents evs := rfl

theorem errorEvents_cons_wait (d : Int) (evs : List Event) :
    errorEvents (.wait d :: evs) = errorEvents evs := rfl

/-! ### Inductive facts about `attemptExecution` -/

/-- Every run of `attemptExecution` invokes the callback at least once. -/
theorem one_le_invocationCount_attempt (op : Op) (mode : Mode) (mr : Int)
    (attempts : Nat) (delay : Int) :
    1 ≤ invocationCount (attemptExecution op mode mr attempts delay).1 := by
  induction attempts, delay using attemptExecution.induct op mode mr with
  | case1 attempts delay h =>
      rw [attemptExecution_of_none h]
      simp [invocationCount_cons, invocationCount_nil, isInvoke]
  | case2 attempts delay t ht h =>
      rw [attemptExecution_of_exhaust ht h]
      simp [invocationCount_cons, invocationCount_nil, isInvoke]
  | case3 attempts delay t ht h delay2 ih =>
      rw [attemptExecution_of_retry ht h]
      simp [invocationCount_cons, isInvoke]

/-- The callback is invoked at most `maxRetries - attempts` times (and at least
once even when that bound is degenerate). -/
theorem invocationCount_attempt_le (op : Op) (mode : Mode) (mr : Int)
    (attempts : Nat) (delay : Int) :
    invocationCount (attemptExecution op mode mr attempts delay).1 ≤
      max (mr.toNat - attempts) 1 := by
  induction attempts, delay using attemptExecution.induct op mode mr with
  | case1 attempts delay h =>
      rw [attemptExecution_of_none h]
      simp [invocationCount_cons, invocationCount_nil, isInvoke]
  | case2 attempts delay t ht h =>
      rw [attemptExecution_of_exhaust ht h]
      simp [invocationCount_cons, invocationCount_nil, isInvoke]
  | case3 attempts delay t ht h delay2 ih =>
      rw [attemptExecution_of_retry ht h]
      unfold delay2 at ih
      simp only [dite_eq_ite] at ih
      simp [invocationCount_cons, isInvoke]
      simp only [not_le] at h
      have h2 : attempts + 2 ≤ mr.toNat := by omega
      omega

/-- In EXPONENTIAL mode the `n`-th scheduled delay (counting from `0`) is the
entry delay doubled `n` times. -/
theorem waitDelays_attempt_exp (op : Op) (mr : Int) (attempts : Nat) (delay : Int) :
    ∀ n d,
      (waitDelays (attemptExecution op Mode.EXPONENTIAL mr attempts delay).1).get? n
          = some d →
      d = delay * 2 ^ n := by
  induction attempts, delay using attemptExecution.induct op Mode.EXPONENTIAL mr with
  | case1 attempts delay h =>
      rw [attemptExecution_of_none h]
      intro n d hd
      simp [waitDelays] at hd
  | case2 attempts delay t ht h =>
      rw [attemptExecution_of_exhaust ht h]
      intro n d hd
      simp [waitDelays] at hd
  | case3 attempts delay t ht h delay2 ih =>
      rw [attemptExecution_of_retry ht h]
      unfold delay2 at ih
      simp at ih
      intro n d hd
      rw [waitDelays_cons_invoke, waitDelays_cons_wait] at hd
      match n with
      | 0 =>
          simp at hd
          simp [hd]
      | n + 1 =>
          simp only [List.get?_cons_succ] at hd
          have he := ih n d (by simpa using hd)
          rw [he]
          ring

/-- In CONSTANT mode every scheduled delay equals the entry delay. -/
theorem waitDelays_attempt_const (op : Op) (mr : Int) (attempts : Nat) (delay : Int) :
    ∀ d ∈ waitDelays (attemptExecution op Mode.CONSTANT mr attempts delay).1,
      d = delay := by
  induction attempts, delay using attemptExecution.induct op Mode.CONSTANT mr with
  | case1 attempts delay h =>
      rw [attemptExecution_of_none h]
      intro d hd
      simp [waitDelays] at hd
  | case2 attempts delay t ht h =>
      rw [attemptExecution_of_exhaust ht h]
      intro d hd
      simp [waitDelays] at hd
  | case3 attempts delay t ht h delay2 ih =>
      rw [attemptExecution_of_retry ht h]
      unfold delay2 at ih
      simp only [dite_eq_ite] at ih
      intro d hd
      rw [waitDelays_cons_invoke, waitDelays_cons_wait] at hd
      simp only [List.mem_cons] at hd
      rcases hd with hd | hd
      · exact hd
      · exact ih d (by simpa using hd)

/-- When the callback throws on every invocation and the attempt counter has not
yet reached the bound, the run performs exactly `mr.toNat - attempts` further
invocations, rejects with the coerced error of the last one, and its only
status update sets the status to `error`. -/
theorem attempt_alwaysFails (op : Op) (mode : Mode) (mr : Int) (t : Nat → Thrown)
    (hop : ∀ n, op n = some (t n)) (attempts : Nat) (delay : Int) :
    (attempts : Int) < mr →
      invocationCount (attemptExecution op mode mr attempts delay).1
          = mr.toNat - attempts ∧
      (attemptExecution op mode mr attempts delay).2
          = .rejected (coerceError (t (mr.toNat - 1))) ∧
      statusEvents (attemptExecution op mode mr attempts delay).1 = [Status.error] := by
  induction attempts, delay using attemptExecution.induct op mode mr with
  | case1 attempts delay h =>
      simp [hop attempts] at h
  | case2 attempts delay t0 ht h =>
      intro hlt
      have ht0 : t0 = t attempts := by
        rw [hop attempts] at ht
        exact (Option.some.inj ht).symm
      have hmrn : mr.toNat = attempts + 1 := by omega
      rw [attemptExecution_of_exhaust ht h]
      refine ⟨?_, ?_, ?_⟩
      · simp [invocationCount_cons, invocationCount_nil, isInvoke]
        omega
      · rw [ht0, hmrn]
        simp
      · simp [statusEvents_cons_invoke, statusEvents_cons_setError,
          statusEvents_cons_setStatus, statusEvents_nil]
  | case3 attempts delay t0 ht h delay2 ih =>
      intro hlt
      unfold delay2 at ih
      simp only [dite_eq_ite] at ih
      have hlt2 : ((attempts + 1 : Nat) : Int) < mr := by
        push_cast
        omega
      obtain ⟨ihc, iho, ihs⟩ := ih hlt2
      rw [attemptExecution_of_retry ht h]
      refine ⟨?_, ?_, ?_⟩
      · simp [invocationCount_cons, isInvoke, ihc]
        omega
      · exact iho
      · simp [statusEvents_cons_invoke, statusEvents_cons_wait, ihs]

/-- The `setError` events of a run of `attemptExecution`: none when the run
resolves, and exactly one — recording the coerced error of the last (failing)
invocation, i.e. the rejection value — when the run rejects. -/
theorem errorEvents_attempt (op : Op) (mode : Mode) (mr : Int)
    (attempts : Nat) (delay : Int) :
    ((attemptExecution op mode mr attempts delay).2 = .resolved →
        errorEvents (attemptExecution op mode mr attempts delay).1 = []) ∧
      (∀ e, (attemptExecution op mode mr attempts delay).2 = .rejected e →
        errorEvents (attemptExecution op mode mr attempts delay).1 = [some e] ∧
        ∃ u,
          op (attempts + invocationCount (attemptExecution op mode mr attempts delay).1
                - 1) = some u ∧
          e = coerceError u) := by
  induction attempts, delay using attemptExecution.induct op mode mr with
  | case1 attempts delay h =>
      rw [attemptExecution_of_none h]
      constructor
      · intro _
        simp [errorEvents_cons_invoke, errorEvents_cons_setStatus, errorEvents_nil]
      · intro e he
        simp at he
  | case2 attempts delay t0 ht h =>
      rw [attemptExecution_of_exhaust ht h]
      constructor
      · intro he
        simp at he
      · intro e he
        have he2 : e = coerceError t0 := by
          simpa using he.symm
        refine ⟨?_, t0, ?_, he2⟩
        · simp [errorEvents_cons_invoke, errorEvents_cons_setError,
            errorEvents_cons_setStatus, errorEvents_nil, he2]
        · simpa [invocationCount_cons, invocationCount_nil, isInvoke] using ht
  | case3 attempts delay t0 ht h delay2 ih =>
      rw [attemptExecution_of_retry ht h]
      unfold delay2 at ih
      simp only [dite_eq_ite] at ih
      constructor
      · intro he
        rw [errorEvents_cons_invoke, errorEvents_cons_wait]
        exact ih.1 he
      · intro e he
        rw [errorEvents_cons_invoke, errorEvents_cons_wait]
        obtain ⟨h1, u, hu, he2⟩ := ih.2 e he
        refine ⟨h1, u, ?_, he2⟩
        have harith :
            attempts +
              invocationCount
                (Event.invoke :: Event.wait delay ::
                  (attemptExecution op mode mr (attempts + 1)
                    (if mode = Mode.EXPONENTIAL then delay * 2 else delay)).1) - 1
            = attempts + 1 +
              invocationCount
                (attemptExecution op mode mr (attempts + 1)
                  (if mode = Mode.EXPONENTIAL then delay * 2 else delay)).1 - 1 := by
          simp [invocationCount_cons, isInvoke]
        rw [harith]
        exact hu

/-! ### Facts about `attemptStates` -/

theorem attemptStates_of_none {op : Op} {mode : Mode} {mr : Int}
    {attempts : Nat} {delay : Int} (h : op attempts = none) :
    attemptStates op mode mr attempts delay = [(attempts, delay)] := by
  rw [attemptStates.eq_def, h]

theorem attemptStates_of_exhaust {op : Op} {mode : Mode} {mr : Int}
    {attempts : Nat} {delay : Int} {t : Thrown}
    (ht : op attempts = some t) (h : (attempts + 1 : Int) ≥ mr) :
    attemptStates op mode mr attempts delay = [(attempts, delay)] := by
  rw [attemptStates.eq_def, ht]
  simp [h]

theorem attemptStates_of_retry {op : Op} {mode : Mode} {mr : Int}
    {attempts : Nat} {delay : Int} {t : Thrown}
    (ht : op attempts = some t) (h : ¬ (attempts + 1 : Int) ≥ mr) :
    attemptStates op mode mr attempts delay =
      (attempts, delay) ::
        attemptStates op mode mr (attempts + 1)
          (if mode = Mode.EXPONENTIAL then delay * 2 else delay) := by
  rw [attemptStates.eq_def, ht]
  simp [h]

/-- The attempt counter of the `i`-th recorded state is the entry counter
plus `i`: it starts where it is reset and grows by exactly one per failed run. -/
theorem attemptStates_fst (op : Op) (mode : Mode) (mr : Int)
    (attempts : Nat) (delay : Int) :
    ∀ i p, (attemptStates op mode mr attempts delay).get? i = some p →
      p.1 = attempts + i := by
  induction attempts, delay using attemptStates.induct op mode mr with
  | case1 attempts delay ih =>
      intro i p hp
      cases hop : op attempts with
      | none =>
          rw [attemptStates_of_none hop] at hp
          match i with
          | 0 => simp at hp; simp [← hp]
          | i + 1 => simp at hp
      | some t =>
          by_cases hge : (attempts + 1 : Int) ≥ mr
          · rw [attemptStates_of_exhaust hop hge] at hp
            match i with
            | 0 => simp at hp; simp [← hp]
            | i + 1 => simp at hp
          · rw [attemptStates_of_retry hop hge] at hp
            have ih2 := ih hge
            simp only [dite_eq_ite] at ih2
            match i with
            | 0 => simp at hp; simp [← hp]
            | i + 1 =>
                simp only [List.get?_cons_succ] at hp
                have := ih2 i p hp
                omega

/-- The attempt counter never exceeds the bound: as long as the entry counter
still admits one run (`attempts + 1 ≤ maxRetries`), every recorded counter `a`
satisfies `a + 1 ≤ maxRetries`. -/
theorem attemptStates_fst_le (op : Op) (mode : Mode) (mr : Int)
    (attempts : Nat) (delay : Int) :
    ((attempts : Int) + 1 ≤ mr) →
      ∀ p ∈ attemptStates op mode mr attempts delay, ((p.1 : Int) + 1 ≤ mr) := by
  induction attempts, delay using attemptStates.induct op mode mr with
  | case1 attempts delay ih =>
      intro h0 p hp
      cases hop : op attempts with
      | none =>
          rw [attemptStates_of_none hop] at hp
          simp at hp
          simp [hp, h0]
      | some t =>
          by_cases hge : (attempts + 1 : Int) ≥ mr
          · rw [attemptStates_of_exhaust hop hge] at hp
            simp at hp
            simp [hp, h0]
          · rw [attemptStates_of_retry hop hge] at hp
            have ih2 := ih hge
            simp only [dite_eq_ite] at ih2
            simp only [List.mem_cons] at hp
            rcases hp with hp | hp
            · simp [hp, h0]
            · refine ih2 ?_ p hp
              push_cast
              omega

/-- In CONSTANT mode the recorded delay never changes. -/
theorem attemptStates_snd_const (op : Op) (mr : Int)
    (attempts : Nat) (delay : Int) :
    ∀ p ∈ attemptStates op Mode.CONSTANT mr attempts delay, p.2 = delay := by
  induction attempts, delay using attemptStates.induct op Mode.CONSTANT mr with
  | case1 attempts delay ih =>
      intro p hp
      cases hop : op attempts with
      | none =>
          rw [attemptStates_of_none hop] at hp
          simp at hp
          simp [hp]
      | some t =>
          by_cases hge : (attempts + 1 : Int) ≥ mr
          · rw [attemptStates_of_exhaust hop hge] at hp
            simp at hp
            simp [hp]
          · rw [attemptStates_of_retry hop hge] at hp
            have ih2 := ih hge
            simp only [dite_eq_ite, reduceIte] at ih2
            simp only [List.mem_cons] at hp
            rcases hp with hp | hp
            · simp [hp]
            · exact ih2 p hp

/-- In EXPONENTIAL mode the `i`-th recorded delay is the entry delay doubled
`i` times. -/
theorem attemptStates_snd_exp (op : Op) (mr : Int)
    (attempts : Nat) (delay : Int) :
    ∀ i p, (attemptStates op Mode.EXPONENTIAL mr attempts delay).get? i = some p →
      p.2 = delay * 2 ^ i := by
  induction attempts, delay using attemptStates.induct op Mode.EXPONENTIAL mr with
  | case1 attempts delay ih =>
      intro i p hp
      cases hop : op attempts with
      | none =>
          rw [attemptStates_of_none hop] at hp
          match i with
          | 0 => simp at hp; simp [← hp]
          | i + 1 => simp at hp
      | some t =>
          by_cases hge : (attempts + 1 : Int) ≥ mr
          · rw [attemptStates_of_exhaust hop hge] at hp
            match i with
            | 0 => simp at hp; simp [← hp]
            | i + 1 => simp at hp
          · rw [attemptStates_of_retry hop hge] at hp
            have ih2 := ih hge
            simp only [dite_eq_ite, reduceIte] at ih2
            match i with
            | 0 => simp at hp; simp [← hp]
            | i + 1 =>
                simp only [List.get?_cons_succ] at hp
                have he := ih2 i p (by simpa using hp)
                rw [he]
                ring

/-! ### The status/error invariant at observable points -/

theorem stateAfter_nil (init : Status × Option JSError) :
    stateAfter init [] = init := rfl

theorem stateAfter_cons (init : Status × Option JSError) (e : Event)
    (evs : List Event) :
    stateAfter init (e :: evs) = stateAfter (stepState init e) evs := rfl

/-- At every observable point of a run of `attemptExecution` started right
after `setStatus(fetching); setError(null)`, a non-null error is only
observable with status `error`. -/
theorem attempt_boundary_inv (op : Op) (mode : Mode) (mr : Int)
    (attempts : Nat) (delay : Int) :
    ∀ n, observableAt (attemptExecution op mode mr attempts delay).1 n = true →
      statusErrorInv (stateAfter (Status.fetching, none)
        ((attemptExecution op mode mr attempts delay).1.take n)) := by
  induction attempts, delay using attemptExecution.induct op mode mr with
  | case1 attempts delay h =>
      rw [attemptExecution_of_none h]
      intro n hn
      match n with
      | 0 => simp [stateAfter_nil, statusErrorInv]
      | 1 => simp [observableAt, isYieldPoint] at hn
      | (k + 2) =>
          simp [List.take_succ_cons, List.take_nil, stateAfter_cons, stateAfter_nil,
            stepState, statusErrorInv]
  | case2 attempts delay t ht h =>
      rw [attemptExecution_of_exhaust ht h]
      intro n hn
      match n with
      | 0 => simp [stateAfter_nil, statusErrorInv]
      | 1 => simp [observableAt, isYieldPoint] at hn
      | 2 => simp [observableAt, isYieldPoint] at hn
      | (k + 3) =>
          simp [List.take_succ_cons, List.take_nil, stateAfter_cons, stateAfter_nil,
            stepState, statusErrorInv]
  | case3 attempts delay t ht h delay2 ih =>
      rw [attemptExecution_of_retry ht h]
      unfold delay2 at ih
      simp only [dite_eq_ite] at ih
      intro n hn
      match n with
      | 0 => simp [stateAfter_nil, statusErrorInv]
      | 1 =>
          simp [List.take_succ_cons, List.take_nil, stateAfter_cons, stateAfter_nil,
            stepState, statusErrorInv]
      | (k + 2) =>
          have hshift :
              observableAt
                (Event.invoke :: Event.wait delay ::
                  (attemptExecution op mode mr (attempts + 1)
                    (if mode = Mode.EXPONENTIAL then delay * 2 else delay)).1) (k + 2)
              = observableAt
                  (attemptExecution op mode mr (attempts + 1)
                    (if mode = Mode.EXPONENTIAL then delay * 2 else delay)).1 k := by
            simp [observableAt]
          rw [hshift] at hn
          have := ih k hn
          simpa [List.take_succ_cons, stateAfter_cons, stepState] using this

/-- A run of `attemptExecution` that resolves leaves the state cells at
`(idle, null)` when started from `(fetching, null)`. -/
theorem attempt_final_state_resolved (op : Op) (mode : Mode) (mr : Int)
    (attempts : Nat) (delay : Int) :
    (attemptExecution op mode mr attempts delay).2 = .resolved →
      stateAfter (Status.fetching, none)
          (attemptExecution op mode mr attempts delay).1 = (Status.idle, none) := by
  induction attempts, delay using attemptExecution.induct op mode mr with
  | case1 attempts delay h =>
      rw [attemptExecution_of_none h]
      intro _
      simp [stateAfter_cons, stateAfter_nil, stepState]
  | case2 attempts delay t ht h =>
      rw [attemptExecution_of_exhaust ht h]
      intro he
      simp at he
  | case3 attempts delay t ht h delay2 ih =>
      rw [attemptExecution_of_retry ht h]
      unfold delay2 at ih
      simp only [dite_eq_ite] at ih
      intro he
      simp only [stateAfter_cons, stepState]
      exact ih he

/-! ### Facts about the cancellation transition system -/

/-- After teardown, no step at all is enabled. -/
theorem retryStep_tornDown (op : Op) (mode : Mode) (mr : Int) (l : MLabel) :
    retryStep op mode mr MState.tornDown l = none := by
  cases l <;> rfl

/-- A trace that runs to completion from the torn-down state is empty. -/
theorem runTrace_tornDown (op : Op) (mode : Mode) (mr : Int)
    (ls : List MLabel) (s1 : MState)
    (h : runTrace op mode mr MState.tornDown ls = some s1) : ls = [] := by
  cases ls with
  | nil => rfl
  | cons l ls =>
      rw [runTrace, retryStep_tornDown] at h
      cases h

/-- A teardown step always lands in the torn-down state. -/
theorem retryStep_teardown (op : Op) (mode : Mode) (mr : Int)
    (s s1 : MState) (h : retryStep op mode mr s MLabel.teardown = some s1) :
    s1 = MState.tornDown := by
  cases s with
  | running a d => simp [retryStep] at h
  | waiting a d => simpa [retryStep] using h.symm
  | settled o => simp [retryStep] at h
  | tornDown => simp [retryStep_tornDown] at h

/-! ### The claims -/

/-- C1 (counterexample): the claim asserts that a policy with
`initialDelayMs ≤ 0` or `maxAttempts < 1` makes the first `execute()` call fail
fast without running any attempt.  Under the policy
`{mode: CONSTANT, initialInterval: 0, maxRetries: 3}` — whose `initialInterval`
is not positive — `execute()` nevertheless invokes the operation once and
resolves successfully: no validation happens. -/
theorem claim_C1_counterexample :
    (RetryOptions.mk (some Mode.CONSTANT) 0 (some 3)).initialInterval ≤ 0 ∧
    (execute (fun _ => none) (RetryOptions.mk (some Mode.CONSTANT) 0 (some 3))).2
        = Outcome.resolved ∧
    invocationCount
      (execute (fun _ => none)
        (RetryOptions.mk (some Mode.CONSTANT) 0 (some 3))).1 = 1 := by
  refine ⟨by decide, ?_, ?_⟩ <;>
    simp [execute, attemptExecution, RetryOptions.modeD, RetryOptions.maxRetriesD,
      invocationCount_cons, invocationCount_nil, isInvoke]

/-- C1 (amended): the executor performs no policy validation.  `execute()`
always invokes the operation at least once, whatever the policy; when
`maxAttempts < 1` there is exactly one invocation and no delay is ever
scheduled (a failure of that single invocation is surfaced immediately). -/
theorem claim_C1_amended_no_validation (op : Op) (opts : RetryOptions) :
    1 ≤ invocationCount (execute op opts).1 ∧
    (opts.maxRetriesD ≤ 0 →
      invocationCount (execute op opts).1 = 1 ∧
        waitDelays (execute op opts).1 = [] ∧
        ∀ t, op 0 = some t →
          (execute op opts).2 = .rejected (coerceError t) ∧
            finalStatus (execute op opts).1 = some Status.error) := by
  constructor
  · have h1 := one_le_invocationCount_attempt op opts.modeD opts.maxRetriesD 0
      opts.initialInterval
    have hexe : invocationCount (execute op opts).1 =
        invocationCount
          (attemptExecution op opts.modeD opts.maxRetriesD 0 opts.initialInterval).1 := by
      simp [execute, invocationCount_cons, isInvoke]
    omega
  · intro hmr
    cases hop : op 0 with
    | none =>
        refine ⟨?_, ?_, ?_⟩
        · simp [execute, attemptExecution_of_none hop, invocationCount_cons,
            invocationCount_nil, isInvoke]
        · simp [execute, attemptExecution_of_none hop, waitDelays_cons_setStatus,
            waitDelays_cons_setError, waitDelays_cons_invoke, waitDelays_nil]
        · intro t ht
          cases ht
    | some t0 =>
        have hge : ((0 : Nat) + 1 : Int) ≥ opts.maxRetriesD := by omega
        refine ⟨?_, ?_, ?_⟩
        · simp [execute, attemptExecution_of_exhaust hop hge, invocationCount_cons,
            invocationCount_nil, isInvoke]
        · simp [execute, attemptExecution_of_exhaust hop hge, waitDelays_cons_setStatus,
            waitDelays_cons_setError, waitDelays_cons_invoke, waitDelays_nil]
        · intro t ht
          have ht0 : t0 = t := Option.some.inj ht
          subst ht0
          constructor
          · simp [execute, attemptExecution_of_exhaust hop hge]
          · simp [execute, attemptExecution_of_exhaust hop hge, finalStatus,
              statusEvents_cons_setStatus, statusEvents_cons_setError,
              statusEvents_cons_invoke, statusEvents_nil]

/-- C2: within one `execute()` call under a policy with `maxAttempts ≥ 1`, the
operation is invoked at most `maxAttempts` times. -/
theorem claim_C2_invocations_le_max (op : Op) (opts : RetryOptions)
    (h : 1 ≤ opts.maxRetriesD) :
    (invocationCount (execute op opts).1 : Int) ≤ opts.maxRetriesD := by
  have hb := invocationCount_attempt_le op opts.modeD opts.maxRetriesD 0
    opts.initialInterval
  have hexe : invocationCount (execute op opts).1 =
      invocationCount
        (attemptExecution op opts.modeD opts.maxRetriesD 0 opts.initialInterval).1 := by
    simp [execute, invocationCount_cons, isInvoke]
  omega

/-- C3: under a policy with mode EXPONENTIAL and `maxAttempts ≥ 1`, the `n`-th
scheduled delay of one `execute()` call (so the delay waited before the `N`-th
retry, `N = n + 1`) is `initialInterval * 2 ^ n = initialDelayMs × 2^(N-1)`. -/
theorem claim_C3_exponential_backoff (op : Op) (opts : RetryOptions)
    (hm : opts.modeD = Mode.EXPONENTIAL) (h1 : 1 ≤ opts.maxRetriesD)
    (n : Nat) (d : Int)
    (hd : (waitDelays (execute op opts).1).get? n = some d) :
    d = opts.initialInterval * 2 ^ n := by
  have hexe : waitDelays (execute op opts).1 =
      waitDelays
        (attemptExecution op opts.modeD opts.maxRetriesD 0 opts.initialInterval).1 := by
    simp [execute, waitDelays_cons_setStatus, waitDelays_cons_setError]
  rw [hexe, hm] at hd
  exact waitDelays_attempt_exp op opts.maxRetriesD 0 opts.initialInterval n d hd

/-- C4: under a policy with `maxAttempts ≥ 1`, if the operation throws on every
invocation then one `execute()` call makes exactly `maxAttempts` invocations,
rejects with the (coerced) error thrown by the last of them, and the last
status it sets is `error` (Failed). -/
theorem claim_C4_exhaustion (op : Op) (opts : RetryOptions) (t : Nat → Thrown)
    (h1 : 1 ≤ opts.maxRetriesD) (hop : ∀ n, op n = some (t n)) :
    invocationCount (execute op opts).1 = opts.maxRetriesD.toNat ∧
    (execute op opts).2
        = .rejected (coerceError (t (opts.maxRetriesD.toNat - 1))) ∧
    finalStatus (execute op opts).1 = some Status.error := by
  obtain ⟨hc, ho, hs⟩ := attempt_alwaysFails op opts.modeD opts.maxRetriesD t hop 0
    opts.initialInterval (by omega)
  refine ⟨?_, ?_, ?_⟩
  · have hexe : invocationCount (execute op opts).1 =
        invocationCount
          (attemptExecution op opts.modeD opts.maxRetriesD 0 opts.initialInterval).1 := by
      simp [execute, invocationCount_cons, isInvoke]
    omega
  · simpa [execute] using ho
  · have hexe : statusEvents (execute op opts).1 =
        Status.fetching ::
          statusEvents
            (attemptExecution op opts.modeD opts.maxRetriesD 0 opts.initialInterval).1 := by
      simp [execute, statusEvents_cons_setStatus, statusEvents_cons_setError]
    rw [finalStatus, hexe, hs]
    rfl

/-- C5: intermediate failures are absorbed — `setError` is called exactly once
with `null` at the start when the call resolves; when the call rejects, the
only further `setError` records exactly the rejection value, which is the
coerced (`instanceof Error` or generic) error of the last invocation. -/
theorem claim_C5_only_final_error_surfaced (op : Op) (opts : RetryOptions) :
    ((execute op opts).2 = .resolved → errorEvents (execute op opts).1 = [none]) ∧
    (∀ e, (execute op opts).2 = .rejected e →
      errorEvents (execute op opts).1 = [none, some e] ∧
      ∃ u, op (invocationCount (execute op opts).1 - 1) = some u ∧
        e = coerceError u) := by
  obtain ⟨hres, hrej⟩ := errorEvents_attempt op opts.modeD opts.maxRetriesD 0
    opts.initialInterval
  have hexe : errorEvents (execute op opts).1 =
      none ::
        errorEvents
          (attemptExecution op opts.modeD opts.maxRetriesD 0 opts.initialInterval).1 := by
    simp [execute, errorEvents_cons_setStatus, errorEvents_cons_setError]
  have hcnt : invocationCount (execute op opts).1 =
      invocationCount
        (attemptExecution op opts.modeD opts.maxRetriesD 0 opts.initialInterval).1 := by
    simp [execute, invocationCount_cons, isInvoke]
  constructor
  · intro he
    have he2 :
        (attemptExecution op opts.modeD opts.maxRetriesD 0 opts.initialInterval).2
          = .resolved := by
      simpa [execute] using he
    rw [hexe, hres he2]
  · intro e he
    have he2 :
        (attemptExecution op opts.modeD opts.maxRetriesD 0 opts.initialInterval).2
          = .rejected e := by
      simpa [execute] using he
    obtain ⟨h2, u, hu, hce⟩ := hrej e he2
    refine ⟨?_, u, ?_, hce⟩
    · rw [hexe, h2]
    · rw [hcnt]
      simpa using hu

/-- C6: within one `execute()` call under a policy with `maxAttempts ≥ 1` and a
positive `initialInterval`: the attempt counter starts at `0` and the `i`-th
recorded `(attempts, delay)` state has counter exactly `i` (it grows by one per
failed run) and never exceeds `maxAttempts`; the delay starts at
`initialInterval`, stays constant in CONSTANT mode, doubles per failed attempt
in EXPONENTIAL mode, and never decreases along the call. -/
theorem claim_C6_counter_delay_invariant (op : Op) (opts : RetryOptions)
    (h1 : 1 ≤ opts.maxRetriesD) (h2 : 0 < opts.initialInterval) :
    (executeStates op opts).get? 0 = some (0, opts.initialInterval) ∧
    (∀ i p, (executeStates op opts).get? i = some p →
        p.1 = i ∧ (p.1 : Int) + 1 ≤ opts.maxRetriesD) ∧
    (opts.modeD = Mode.CONSTANT →
        ∀ p ∈ executeStates op opts, p.2 = opts.initialInterval) ∧
    (opts.modeD = Mode.EXPONENTIAL →
        ∀ i p, (executeStates op opts).get? i = some p →
          p.2 = opts.initialInterval * 2 ^ i) ∧
    (∀ i j p q, i ≤ j → (executeStates op opts).get? i = some p →
        (executeStates op opts).get? j = some q → p.2 ≤ q.2) := by
  refine ⟨?_, ?_, ?_, ?_, ?_⟩
  · rw [executeStates, attemptStates.eq_def]
    rfl
  · intro i p hp
    constructor
    · simpa using attemptStates_fst op opts.modeD opts.maxRetriesD 0
        opts.initialInterval i p hp
    · exact attemptStates_fst_le op opts.modeD opts.maxRetriesD 0
        opts.initialInterval (by omega) p (List.get?_mem hp)
  · intro hm p hp
    rw [executeStates, hm] at hp
    exact attemptStates_snd_const op opts.maxRetriesD 0 opts.initialInterval p hp
  · intro hm i p hp
    rw [executeStates, hm] at hp
    exact attemptStates_snd_exp op opts.maxRetriesD 0 opts.initialInterval i p hp
  · intro i j p q hij hp hq
    cases hm : opts.modeD with
    | CONSTANT =>
        have hp2 := attemptStates_snd_const op opts.maxRetriesD 0 opts.initialInterval p
          (by rw [executeStates, hm] at hp; exact List.get?_mem hp)
        have hq2 := attemptStates_snd_const op opts.maxRetriesD 0 opts.initialInterval q
          (by rw [executeStates, hm] at hq; exact List.get?_mem hq)
        rw [hp2, hq2]
    | EXPONENTIAL =>
        have hp2 := attemptStates_snd_exp op opts.maxRetriesD 0 opts.initialInterval i p
          (by rw [executeStates, hm] at hp; exact hp)
        have hq2 := attemptStates_snd_exp op opts.maxRetriesD 0 opts.initialInterval j q
          (by rw [executeStates, hm] at hq; exact hq)
        rw [hp2, hq2]
        have hpow : (2 : Int) ^ i ≤ 2 ^ j :=
          pow_le_pow_right₀ (by norm_num) hij
        exact mul_le_mul_of_nonneg_left hpow (le_of_lt h2)

/-- C7: if the operation succeeds on its first invocation, one `execute()` call
takes the status from idle (the initial state) through `fetching` (Running)
back to `idle`, leaves the recorded error `null` at resolution, schedules no
delay timer, and resolves. -/
theorem claim_C7_first_attempt_success (op : Op) (opts : RetryOptions)
    (h : op 0 = none) :
    initialStatus = Status.idle ∧
    statusEvents (execute op opts).1 = [Status.fetching, Status.idle] ∧
    errorEvents (execute op opts).1 = [none] ∧
    waitDelays (execute op opts).1 = [] ∧
    stateAfter (initialStatus, initialError) (execute op opts).1
        = (Status.idle, none) ∧
    (execute op opts).2 = .resolved := by
  have hb := @attemptExecution_of_none op opts.modeD opts.maxRetriesD 0
    opts.initialInterval h
  refine ⟨rfl, ?_, ?_, ?_, ?_, ?_⟩ <;>
    simp [execute, hb, statusEvents_cons_setStatus, statusEvents_cons_setError,
      statusEvents_cons_invoke, statusEvents_nil, errorEvents_cons_setStatus,
      errorEvents_cons_setError, errorEvents_cons_invoke, errorEvents_nil,
      waitDelays_cons_setStatus, waitDelays_cons_setError, waitDelays_cons_invoke,
      waitDelays_nil, stateAfter_cons, stateAfter_nil, stepState, initialStatus,
      initialError]

/-- C8: in the cancellation transition system, if the owning component is torn
down while a retry delay is pending (the `teardown` step, enabled exactly in
the `waiting` state, runs `clearTimeout`), then the operation is never invoked
again in the remainder of the trace. -/
theorem claim_C8_no_invoke_after_teardown (op : Op) (mode : Mode) (mr : Int)
    (s s1 : MState) (ls1 ls2 : List MLabel)
    (h : runTrace op mode mr s (ls1 ++ MLabel.teardown :: ls2) = some s1) :
    MLabel.invoke ∉ ls2 := by
  induction ls1 generalizing s with
  | nil =>
      simp only [List.nil_append] at h
      cases hstep : retryStep op mode mr s MLabel.teardown with
      | none => simp [runTrace, hstep] at h
      | some s2 =>
          simp only [runTrace, hstep] at h
          have h2 := retryStep_teardown op mode mr s s2 hstep
          subst h2
          have h3 := runTrace_tornDown op mode mr ls2 s1 h
          simp [h3]
  | cons l ls ih =>
      rw [List.cons_append] at h
      cases hstep : retryStep op mode mr s l with
      | none => simp [runTrace, hstep] at h
      | some s2 =>
          simp only [runTrace, hstep] at h
          exact ih s2 h

/-- C9: under a policy with mode CONSTANT and `maxAttempts ≥ 1`, every delay
scheduled between consecutive attempts of one `execute()` call equals
`initialInterval`. -/
theorem claim_C9_constant_backoff (op : Op) (opts : RetryOptions)
    (hm : opts.modeD = Mode.CONSTANT) (h1 : 1 ≤ opts.maxRetriesD) :
    ∀ d ∈ waitDelays (execute op opts).1, d = opts.initialInterval := by
  have hexe : waitDelays (execute op opts).1 =
      waitDelays
        (attemptExecution op opts.modeD opts.maxRetriesD 0 opts.initialInterval).1 := by
    simp [execute, waitDelays_cons_setStatus, waitDelays_cons_setError]
  rw [hexe, hm]
  exact waitDelays_attempt_const op opts.maxRetriesD 0 opts.initialInterval

/-- C10: at every observable point of one `execute()` call (whenever the
synchronous code yields — before an invocation, before a timer suspension, and
at the end) a non-null recorded error is only observable with status `error`
(Failed), whatever state a previous run left behind; the state cells right
before the first attempt are `(fetching, null)` — so `execute()` resets the
error to `null` before the first attempt — and a run that resolves, even after
intermediate failures, ends at `(idle, null)`. -/
theorem claim_C10_error_null_unless_failed (op : Op) (opts : RetryOptions)
    (init : Status × Option JSError) :
    (∀ n, observableAt (execute op opts).1 n = true →
        statusErrorInv (stateAfter init ((execute op opts).1.take n))) ∧
    stateAfter init ((execute op opts).1.take 2) = (Status.fetching, none) ∧
    ((execute op opts).2 = .resolved →
        stateAfter init (execute op opts).1 = (Status.idle, none)) := by
  refine ⟨?_, ?_, ?_⟩
  · intro n hn
    match n with
    | 0 => simp [execute, observableAt, isYieldPoint] at hn
    | 1 => simp [execute, observableAt, isYieldPoint] at hn
    | (k + 2) =>
        have hshift : observableAt (execute op opts).1 (k + 2) =
            observableAt
              (attemptExecution op opts.modeD opts.maxRetriesD 0 opts.initialInterval).1
              k := by
          simp [execute, observableAt]
        rw [hshift] at hn
        have hmain := attempt_boundary_inv op opts.modeD opts.maxRetriesD 0
          opts.initialInterval k hn
        simpa [execute, List.take_succ_cons, stateAfter_cons, stepState] using hmain
  · simp [execute, List.take_succ_cons, stateAfter_cons, stateAfter_nil, stepState]
  · intro he
    have he2 :
        (attemptExecution op opts.modeD opts.maxRetriesD 0 opts.initialInterval).2
          = .resolved := by
      simpa [execute] using he
    have hfin := attempt_final_state_resolved op opts.modeD opts.maxRetriesD 0
      opts.initialInterval he2
    simpa [execute, stateAfter_cons, stepState] using hfin

/-! ### Concrete witnesses -/

/-- Concrete instance of `claim_C1_amended_no_validation`: zero allowed
attempts (`maxAttempts < 1`), an always-throwing operation — yet `execute()`
runs the operation exactly once and schedules nothing. -/
theorem claim_C1_amended_witness :
    (RetryOptions.mk none 7 (some 0)).maxRetriesD ≤ 0 ∧
    ((fun _ => some (Thrown.other 3) : Op) 0 = some (Thrown.other 3)) ∧
    (1 ≤ invocationCount
        (execute (fun _ => some (Thrown.other 3)) (RetryOptions.mk none 7 (some 0))).1 ∧
      (invocationCount
          (execute (fun _ => some (Thrown.other 3))
            (RetryOptions.mk none 7 (some 0))).1 = 1 ∧
        waitDelays
          (execute (fun _ => some (Thrown.other 3))
            (RetryOptions.mk none 7 (some 0))).1 = [] ∧
        ((execute (fun _ => some (Thrown.other 3))
            (RetryOptions.mk none 7 (some 0))).2
          = .rejected (coerceError (Thrown.other 3)) ∧
          finalStatus
              (execute (fun _ => some (Thrown.other 3))
                (RetryOptions.mk none 7 (some 0))).1
            = some Status.error))) :=
  ⟨by decide, rfl,
    (claim_C1_amended_no_validation (fun _ => some (Thrown.other 3))
      (RetryOptions.mk none 7 (some 0))).1,
    ((claim_C1_amended_no_validation (fun _ => some (Thrown.other 3))
      (RetryOptions.mk none 7 (some 0))).2 (by decide)).1,
    ((claim_C1_amended_no_validation (fun _ => some (Thrown.other 3))
      (RetryOptions.mk none 7 (some 0))).2 (by decide)).2.1,
    ((claim_C1_amended_no_validation (fun _ => some (Thrown.other 3))
      (RetryOptions.mk none 7 (some 0))).2 (by decide)).2.2
      (Thrown.other 3) rfl⟩

/-- Concrete instance of `claim_C2_invocations_le_max`: an always-throwing
operation under `maxRetries = 3` is invoked at most three times. -/
theorem claim_C2_witness :
    1 ≤ (RetryOptions.mk (some Mode.CONSTANT) 5 (some 3)).maxRetriesD ∧
    (invocationCount
        (execute (fun _ => some (Thrown.other 0))
          (RetryOptions.mk (some Mode.CONSTANT) 5 (some 3))).1 : Int)
      ≤ (RetryOptions.mk (some Mode.CONSTANT) 5 (some 3)).maxRetriesD :=
  ⟨by decide,
    claim_C2_invocations_le_max (fun _ => some (Thrown.other 0))
      (RetryOptions.mk (some Mode.CONSTANT) 5 (some 3)) (by decide)⟩

/-- Concrete instance of `claim_C3_exponential_backoff`: with
`initialInterval = 100` the second scheduled delay is `200 = 100 * 2 ^ 1`. -/
theorem claim_C3_witness :
    (RetryOptions.mk (some Mode.EXPONENTIAL) 100 (some 3)).modeD
        = Mode.EXPONENTIAL ∧
    1 ≤ (RetryOptions.mk (some Mode.EXPONENTIAL) 100 (some 3)).maxRetriesD ∧
    (waitDelays
        (execute (fun _ => some (Thrown.err ⟨"boom"⟩))
          (RetryOptions.mk (some Mode.EXPONENTIAL) 100 (some 3))).1).get? 1
      = some 200 ∧
    (200 : Int)
      = (RetryOptions.mk (some Mode.EXPONENTIAL) 100 (some 3)).initialInterval
          * 2 ^ 1 := by
  have hget :
      (waitDelays
          (execute (fun _ => some (Thrown.err ⟨"boom"⟩))
            (RetryOptions.mk (some Mode.EXPONENTIAL) 100 (some 3))).1).get? 1
        = some 200 := by
    simp [execute, attemptExecution, RetryOptions.modeD, RetryOptions.maxRetriesD,
      waitDelays_cons_setStatus, waitDelays_cons_setError, waitDelays_cons_invoke,
      waitDelays_cons_wait, waitDelays_nil]
  exact ⟨rfl, by decide, hget,
    claim_C3_exponential_backoff (fun _ => some (Thrown.err ⟨"boom"⟩))
      (RetryOptions.mk (some Mode.EXPONENTIAL) 100 (some 3)) rfl (by decide)
      1 200 hget⟩

/-- Concrete instance of `claim_C4_exhaustion`: an operation that always throws
a non-`Error` value, under `maxRetries = 2`: two invocations, rejection with
the generic error, final status `error`. -/
theorem claim_C4_witness :
    1 ≤ (RetryOptions.mk (some Mode.CONSTANT) 5 (some 2)).maxRetriesD ∧
    (∀ n, (fun k => some (Thrown.other k) : Op) n = some (Thrown.other n)) ∧
    (invocationCount
        (execute (fun k => some (Thrown.other k))
          (RetryOptions.mk (some Mode.CONSTANT) 5 (some 2))).1
        = (RetryOptions.mk (some Mode.CONSTANT) 5 (some 2)).maxRetriesD.toNat ∧
      (execute (fun k => some (Thrown.other k))
          (RetryOptions.mk (some Mode.CONSTANT) 5 (some 2))).2
        = .rejected (coerceError (Thrown.other
            ((RetryOptions.mk (some Mode.CONSTANT) 5 (some 2)).maxRetriesD.toNat - 1))) ∧
      finalStatus
          (execute (fun k => some (Thrown.other k))
            (RetryOptions.mk (some Mode.CONSTANT) 5 (some 2))).1
        = some Status.error) :=
  ⟨by decide, fun _ => rfl,
    claim_C4_exhaustion (fun k => some (Thrown.other k))
      (RetryOptions.mk (some Mode.CONSTANT) 5 (some 2))
      (fun k => Thrown.other k) (by decide) (fun _ => rfl)⟩

/-- Concrete instance of `claim_C5_only_final_error_surfaced`: a single
always-throwing (non-`Error`) attempt under `maxRetries = 1` rejects with the
generic error, records it once after the initial `null`, and the thrown value
of the only invocation coerces to it. -/
theorem claim_C5_witness :
    (execute (fun _ => some (Thrown.other 0))
        (RetryOptions.mk (some Mode.CONSTANT) 5 (some 1))).2
      = Outcome.rejected ⟨"Unknown error"⟩ ∧
    (errorEvents
        (execute (fun _ => some (Thrown.other 0))
          (RetryOptions.mk (some Mode.CONSTANT) 5 (some 1))).1
        = [none, some ⟨"Unknown error"⟩] ∧
      ∃ u,
        (fun _ => some (Thrown.other 0) : Op)
            (invocationCount
              (execute (fun _ => some (Thrown.other 0))
                (RetryOptions.mk (some Mode.CONSTANT) 5 (some 1))).1 - 1)
          = some u ∧
        (⟨"Unknown error"⟩ : JSError) = coerceError u) := by
  have hrej :
      (execute (fun _ => some (Thrown.other 0))
          (RetryOptions.mk (some Mode.CONSTANT) 5 (some 1))).2
        = Outcome.rejected ⟨"Unknown error"⟩ := by
    simp [execute, attemptExecution, coerceError, RetryOptions.modeD,
      RetryOptions.maxRetriesD]
  exact ⟨hrej,
    (claim_C5_only_final_error_surfaced (fun _ => some (Thrown.other 0))
      (RetryOptions.mk (some Mode.CONSTANT) 5 (some 1))).2
      ⟨"Unknown error"⟩ hrej⟩

/-- Concrete instance of `claim_C6_counter_delay_invariant` under
`{EXPONENTIAL, 100, 3}` and an operation that fails twice, then succeeds. -/
theorem claim_C6_witness :
    1 ≤ (RetryOptions.mk (some Mode.EXPONENTIAL) 100 (some 3)).maxRetriesD ∧
    0 < (RetryOptions.mk (some Mode.EXPONENTIAL) 100 (some 3)).initialInterval ∧
    ((executeStates (fun n => if n < 2 then some (Thrown.err ⟨"x"⟩) else none)
          (RetryOptions.mk (some Mode.EXPONENTIAL) 100 (some 3))).get? 0
        = some (0, (RetryOptions.mk (some Mode.EXPONENTIAL) 100 (some 3)).initialInterval) ∧
      (∀ i p,
          (executeStates (fun n => if n < 2 then some (Thrown.err ⟨"x"⟩) else none)
              (RetryOptions.mk (some Mode.EXPONENTIAL) 100 (some 3))).get? i = some p →
          p.1 = i ∧ (p.1 : Int) + 1
            ≤ (RetryOptions.mk (some Mode.EXPONENTIAL) 100 (some 3)).maxRetriesD) ∧
      ((RetryOptions.mk (some Mode.EXPONENTIAL) 100 (some 3)).modeD = Mode.CONSTANT →
        ∀ p ∈ executeStates (fun n => if n < 2 then some (Thrown.err ⟨"x"⟩) else none)
            (RetryOptions.mk (some Mode.EXPONENTIAL) 100 (some 3)),
          p.2 = (RetryOptions.mk (some Mode.EXPONENTIAL) 100 (some 3)).initialInterval) ∧
      ((RetryOptions.mk (some Mode.EXPONENTIAL) 100 (some 3)).modeD = Mode.EXPONENTIAL →
        ∀ i p,
          (executeStates (fun n => if n < 2 then some (Thrown.err ⟨"x"⟩) else none)
              (RetryOptions.mk (some Mode.EXPONENTIAL) 100 (some 3))).get? i = some p →
          p.2 = (RetryOptions.mk (some Mode.EXPONENTIAL) 100 (some 3)).initialInterval
            * 2 ^ i) ∧
      (∀ i j p q, i ≤ j →
        (executeStates (fun n => if n < 2 then some (Thrown.err ⟨"x"⟩) else none)
            (RetryOptions.mk (some Mode.EXPONENTIAL) 100 (some 3))).get? i = some p →
        (executeStates (fun n => if n < 2 then some (Thrown.err ⟨"x"⟩) else none)
            (RetryOptions.mk (some Mode.EXPONENTIAL) 100 (some 3))).get? j = some q →
        p.2 ≤ q.2)) :=
  ⟨by decide, by decide,
    claim_C6_counter_delay_invariant
      (fun n => if n < 2 then some (Thrown.err ⟨"x"⟩) else none)
      (RetryOptions.mk (some Mode.EXPONENTIAL) 100 (some 3))
      (by decide) (by decide)⟩

/-- Concrete instance of `claim_C7_first_attempt_success`: an operation that
succeeds immediately. -/
theorem claim_C7_witness :
    ((fun _ => none : Op) 0 = none) ∧
    (initialStatus = Status.idle ∧
      statusEvents
          (execute (fun _ => none) (RetryOptions.mk none 50 none)).1
        = [Status.fetching, Status.idle] ∧
      errorEvents (execute (fun _ => none) (RetryOptions.mk none 50 none)).1 = [none] ∧
      waitDelays (execute (fun _ => none) (RetryOptions.mk none 50 none)).1 = [] ∧
      stateAfter (initialStatus, initialError)
          (execute (fun _ => none) (RetryOptions.mk none 50 none)).1
        = (Status.idle, none) ∧
      (execute (fun _ => none) (RetryOptions.mk none 50 none)).2 = .resolved) :=
  ⟨rfl,
    claim_C7_first_attempt_success (fun _ => none) (RetryOptions.mk none 50 none) rfl⟩

/-- Concrete instance of `claim_C8_no_invoke_after_teardown`: the first attempt
fails, a delay is pending, the component unmounts.  The trace ends there. -/
theorem claim_C8_witness :
    runTrace (fun _ => some (Thrown.other 0)) Mode.CONSTANT 3
        (MState.running 0 100) ([MLabel.invoke] ++ MLabel.teardown :: [])
      = some MState.tornDown ∧
    MLabel.invoke ∉ ([] : List MLabel) :=
  ⟨by decide,
    claim_C8_no_invoke_after_teardown (fun _ => some (Thrown.other 0))
      Mode.CONSTANT 3 (MState.running 0 100) MState.tornDown
      [MLabel.invoke] [] (by decide)⟩

/-- Concrete instance of `claim_C9_constant_backoff`: default mode (CONSTANT),
`initialInterval = 70`, two attempts — every scheduled delay is `70`. -/
theorem claim_C9_witness :
    (RetryOptions.mk none 70 (some 2)).modeD = Mode.CONSTANT ∧
    1 ≤ (RetryOptions.mk none 70 (some 2)).maxRetriesD ∧
    ∀ d ∈ waitDelays
        (execute (fun _ => some (Thrown.err ⟨"nope"⟩))
          (RetryOptions.mk none 70 (some 2))).1,
      d = (RetryOptions.mk none 70 (some 2)).initialInterval :=
  ⟨rfl, by decide,
    claim_C9_constant_backoff (fun _ => some (Thrown.err ⟨"nope"⟩))
      (RetryOptions.mk none 70 (some 2)) rfl (by decide)⟩

/-- Concrete instance of `claim_C10_error_null_unless_failed`: starting from a
previous run's `(error, some e)` state, at the first observable point (the
first invocation, position 2) the error cell is already reset to `null`. -/
theorem claim_C10_witness :
    observableAt
        (execute (fun n => if n = 0 then some (Thrown.err ⟨"e"⟩) else none)
          (RetryOptions.mk (some Mode.CONSTANT) 10 (some 3))).1 2 = true ∧
    statusErrorInv
      (stateAfter (Status.error, some ⟨"old"⟩)
        ((execute (fun n => if n = 0 then some (Thrown.err ⟨"e"⟩) else none)
            (RetryOptions.mk (some Mode.CONSTANT) 10 (some 3))).1.take 2)) := by
  have hobs :
      observableAt
          (execute (fun n => if n = 0 then some (Thrown.err ⟨"e"⟩) else none)
            (RetryOptions.mk (some Mode.CONSTANT) 10 (some 3))).1 2 = true := by
    simp [execute, attemptExecution, observableAt, isYieldPoint,
      RetryOptions.modeD, RetryOptions.maxRetriesD]
  exact ⟨hobs,
    (claim_C10_error_null_unless_failed
      (fun n => if n = 0 then some (Thrown.err ⟨"e"⟩) else none)
      (RetryOptions.mk (some Mode.CONSTANT) 10 (some 3))
      (Status.error, some ⟨"old"⟩)).1 2 hobs⟩

end ReactUtils
